import Mathlib

/-!
Shallow embedding of the NeuroMetabolic Framework core pipeline
(KEGG record parsing, mechanism classification, priority scoring,
interactome construction and mechanism enrichment) together with
theorems settling the specification claims C1 to C10.

Python strings are modelled as `List Char` (the underlying character
list of a Lean `String`); the helper functions below reproduce the
exact semantics of the Python string primitives the source uses
(`in`, `str.split(sep)`, `str.split(None, 1)`, `str.strip()`,
`str.replace`, `str.startswith`).
-/

deriving instance DecidableEq for Except

namespace HuntApp

/-- Python list/str prefix test: `startsL needle hay` is true iff `hay`
begins with `needle`. -/
def startsL : List Char → List Char → Bool
  | [], _ => true
  | _ :: _, [] => false
  | a :: as, b :: bs => a = b && startsL as bs

/-- Python substring containment `needle in hay`. -/
def subIn (needle : List Char) : List Char → Bool
  | [] => needle.isEmpty
  | c :: t => startsL needle (c :: t) || subIn needle t

/-- Python `hay.split('; ')`: split at every occurrence of the two-character
separator, keeping empty chunks. -/
def splitSemiSpace : List Char → List (List Char)
  | [] => [[]]
  | [c] => [[c]]
  | c1 :: c2 :: t =>
    if c1 = ';' && c2 = ' ' then [] :: splitSemiSpace t
    else
      match splitSemiSpace (c2 :: t) with
      | [] => [[c1]]
      | h :: r => (c1 :: h) :: r

/-- Python `hay.split('\n')`. -/
def splitNL : List Char → List (List Char)
  | [] => [[]]
  | c :: t =>
    if c = '\n' then [] :: splitNL t
    else
      match splitNL t with
      | [] => [[c]]
      | h :: r => (c :: h) :: r

/-- Python `s.split(None, 1)`: drop leading whitespace, take the first
whitespace-free token, drop the whitespace run after it, and return the
token together with the (untrimmed) remainder when it is non-empty. -/
def splitNone1 (s : List Char) : List (List Char) :=
  let s1 := s.dropWhile Char.isWhitespace
  let tok := s1.takeWhile (fun c => !c.isWhitespace)
  let rest := (s1.dropWhile (fun c => !c.isWhitespace)).dropWhile Char.isWhitespace
  if tok = [] then []
  else if rest = [] then [tok]
  else [tok, rest]

/-- Python `s.strip()`. -/
def trimC (l : List Char) : List Char :=
  ((l.dropWhile Char.isWhitespace).reverse.dropWhile Char.isWhitespace).reverse

/-- Python `line.replace('GENE', '')`: remove every occurrence of `GENE`,
scanning left to right. -/
def removeGENE : List Char → List Char
  | 'G' :: 'E' :: 'N' :: 'E' :: t => removeGENE t
  | c :: t => c :: removeGENE t
  | [] => []

/-- One parsed gene entry (`{'ID': ..., 'Symbol': ..., 'Description': ...}`
appended to `genes` in `get_kegg_genes`). -/
structure GeneRecord where
  id : String
  symbol : String
  description : String
deriving DecidableEq, Repr

/-- The gene-extraction body of the `get_kegg_genes` loop, applied to one
line that is inside the GENE section and non-empty:

    if ';' in line:
        parts = line.split('; ')
        description = parts[1].strip()
        id_symbol_part = parts[0].strip()
        sub_parts = id_symbol_part.split(None, 1)
        if len(sub_parts) >= 2: append record

`parts[1]` raises `IndexError` when the split produced fewer than two
chunks; this is modelled by `Except.error ()`. -/
def extractGene (line : List Char) : Except Unit (Option GeneRecord) :=
  if subIn [';'] line then
    match splitSemiSpace line with
    | p0 :: p1 :: _ =>
      let description := trimC p1
      let id_symbol_part := trimC p0
      match splitNone1 id_symbol_part with
      | gid :: gsym :: _ =>
        .ok (some ⟨⟨trimC gid⟩, ⟨trimC gsym⟩, ⟨description⟩⟩)
      | _ => .ok none
    | _ => .error ()
  else .ok none

/-- One iteration of the `get_kegg_genes` line loop: section bookkeeping
(`GENE` opens the section and is stripped from the line; `COMPOUND`,
`REFERENCE` and `AUTHORS` close it) followed by gene extraction. -/
def stepLine (st : Bool × List GeneRecord) (line0 : List Char) :
    Except Unit (Bool × List GeneRecord) :=
  let flagLine :=
    if startsL "GENE".data line0 then
      (true, trimC (removeGENE line0))
    else if startsL "COMPOUND".data line0 || startsL "REFERENCE".data line0
        || startsL "AUTHORS".data line0 then
      (false, line0)
    else (st.1, line0)
  if flagLine.1 && flagLine.2 ≠ [] then
    match extractGene flagLine.2 with
    | .error e => .error e
    | .ok none => .ok (flagLine.1, st.2)
    | .ok (some g) => .ok (flagLine.1, st.2 ++ [g])
  else .ok (flagLine.1, st.2)

/-- `get_kegg_genes`, abstracted over the HTTP response: on status 200 the
body is split on newlines and scanned by the section state machine; on any
other status the gene list stays empty and an empty table is returned.
A propagating `IndexError` from the loop body is `Except.error ()`. -/
def get_kegg_genes (status : Nat) (text : String) :
    Except Unit (List GeneRecord) :=
  if status = 200 then
    match (splitNL text.data).foldlM stepLine (false, []) with
    | .error e => .error e
    | .ok st => .ok st.2
  else .ok []

example : splitSemiSpace "1234 HTT; huntingtin".data =
    ["1234 HTT".data, "huntingtin".data] := by decide
example : splitNone1 "  1234  HTT ".data = ["1234".data, "HTT ".data] := by decide
example : get_kegg_genes 200 "GENE        1234 HTT; huntingtin\nCOMPOUND  x" =
    .ok [⟨"1234", "HTT", "huntingtin"⟩] := by decide
example : get_kegg_genes 200 "GENE  1234 HTT;huntingtin" = .error () := by decide
example : get_kegg_genes 404 "GENE  1234 HTT; huntingtin" = .ok [] := by decide
example : get_kegg_genes 200 "GENE  1234 HTT; desc one; desc two" =
    .ok [⟨"1234", "HTT", "desc one"⟩] := by decide

/-- The closed set of functional-role labels (`role_colors` keys /
`assign_role` results). -/
inductive Role where
  | coreGene
  | mitochondrial
  | apoptosis
  | synaptic
  | autophagy
  | proteostasis
  | pathwayComponent
deriving DecidableEq, Repr

/-- The display string attached to each role (the `role_colors` key /
the string literal `assign_role` returns). -/
def roleLabel : Role → String
  | .coreGene => "⭐ Core Gene"
  | .mitochondrial => "🔋 Mitochondrial Dysfunction"
  | .apoptosis => "💀 Apoptosis"
  | .synaptic => "🧠 Synaptic / Excitotoxicity"
  | .autophagy => "♻️ Autophagy"
  | .proteostasis => "📦 Proteostasis / PSMC"
  | .pathwayComponent => "🧬 Pathway Component"

/-- `role_colors.keys()` in dict insertion order. -/
def role_colors_keys : List Role :=
  [.coreGene, .mitochondrial, .apoptosis, .synaptic, .autophagy,
   .proteostasis, .pathwayComponent]

/-- Python substring containment on `String`s. -/
def containsSub (needle hay : String) : Bool :=
  subIn needle.data hay.data

/-- ASCII lowercase map (Python `str.lower()`; the source only compares
against ASCII keywords). -/
def lowerChar : Char → Char
  | 'A' => 'a' | 'B' => 'b' | 'C' => 'c' | 'D' => 'd' | 'E' => 'e'
  | 'F' => 'f' | 'G' => 'g' | 'H' => 'h' | 'I' => 'i' | 'J' => 'j'
  | 'K' => 'k' | 'L' => 'l' | 'M' => 'm' | 'N' => 'n' | 'O' => 'o'
  | 'P' => 'p' | 'Q' => 'q' | 'R' => 'r' | 'S' => 's' | 'T' => 't'
  | 'U' => 'u' | 'V' => 'v' | 'W' => 'w' | 'X' => 'x' | 'Y' => 'y'
  | 'Z' => 'z' | c => c

/-- Python `s.lower()`. -/
def lowerStr (s : String) : String :=
  ⟨s.data.map lowerChar⟩

/-- `core_dict.get(disease_name, [])` from `assign_role`. -/
def core_dict (disease_name : String) : List String :=
  if disease_name = "Huntington\x27s" then
    ["HTT", "BDNF", "CASP3", "CREB1", "TP53", "SOD1", "PPARGC1A"]
  else if disease_name = "Alzheimer\x27s" then
    ["APP", "MAPT", "APOE", "PSEN1", "PSEN2", "BACE1"]
  else if disease_name = "Parkinson\x27s" then
    ["SNCA", "PRKN", "PINK1", "LRRK2", "PARK7"]
  else if disease_name = "ALS" then
    ["SOD1", "TARDBP", "FUS", "C9orf72", "OPTN"]
  else if disease_name = "Prion Disease" then
    ["PRNP", "TNP1", "STIP1"]
  else if disease_name = "Spinocerebellar Ataxia" then
    ["ATXN1", "ATXN2", "ATXN3", "CACNA1A"]
  else if disease_name = "Spinal Muscular Atrophy" then
    ["SMN1", "SMN2", "VAPB"]
  else if disease_name = "Autism Spectrum Disorder" then
    ["SHANK3", "NLGN3", "NRXN1", "PTEN"]
  else if disease_name = "Schizophrenia" then
    ["DRD2", "DISC1", "COMT", "GRIN2A"]
  else if disease_name = "Bipolar Disorder" then
    ["ANK3", "CACNA1C", "CLOCK"]
  else if disease_name = "Depression" then
    ["SLC6A4", "BDNF", "HTR1A", "MAOA"]
  else if disease_name = "Type II Diabetes" then
    ["INS", "INSR", "IRS1", "SLC2A4"]
  else if disease_name = "Insulin Resistance" then
    ["IRS1", "PIK3CA", "AKT1"]
  else []

/-- `assign_role(symbol, desc, disease_name)`: first-match-wins rule chain.
Note that the sixth rule tests the lowercase substring `psm` against the
(unlowered) symbol. -/
def assign_role (symbol desc disease_name : String) : Role :=
  let CORE_GENES := core_dict disease_name
  let desc_lower := lowerStr desc
  if CORE_GENES.contains symbol then .coreGene
  else if containsSub "mitochond" desc_lower || containsSub "atp" desc_lower then
    .mitochondrial
  else if containsSub "apopt" desc_lower || containsSub "caspase" desc_lower then
    .apoptosis
  else if containsSub "autophagy" desc_lower then .autophagy
  else if containsSub "synap" desc_lower || containsSub "glutamate" desc_lower then
    .synaptic
  else if containsSub "psm" symbol || containsSub "proteasome" desc_lower then
    .proteostasis
  else .pathwayComponent

example : assign_role "HTT" "huntingtin" "Huntington\x27s" = .coreGene := by decide
example : assign_role "HTT" "mitochondrial protein" "Huntington\x27s" = .coreGene := by decide
example : assign_role "PSMA1" "alpha subunit" "Huntington\x27s" = .pathwayComponent := by decide
example : assign_role "PSMA1" "proteasome subunit" "Huntington\x27s" = .proteostasis := by decide
example : assign_role "Xpsm1" "alpha subunit" "Huntington\x27s" = .proteostasis := by decide
example : assign_role "BDNF" "brain-derived, synaptic plasticity" "ALS" = .synaptic := by decide

/-!
`calculate_validation` calls `np.random.seed(sum(ord(c) for c in symbol))`
followed by `np.random.randint(20, 60)`.  The legacy numpy global generator
is a Mersenne Twister (MT19937); we embed it: Knuth-style seeding
(`init_genrand`), the block twist, tempering, and the masked-rejection
bounded draw used by `randint` for a 32-bit range (draw a 32-bit word,
mask with 63, retry while the value exceeds 39).  All words are `Nat`s
reduced mod 2^32.
-/

/-- The global numpy generator state: 624 32-bit words plus a cursor. -/
structure MTState where
  key : List Nat
  pos : Nat
deriving DecidableEq, Repr

/-- `init_genrand` recurrence: `mt[i] = 1812433253 * (mt[i-1] xor (mt[i-1] >> 30)) + i`. -/
def mtInitAux (prev i : Nat) : Nat → List Nat
  | 0 => []
  | fuel + 1 =>
    let x := (1812433253 * (prev ^^^ (prev >>> 30)) + i) % 4294967296
    x :: mtInitAux x (i + 1) fuel

/-- `np.random.seed(s)` for `0 ≤ s < 2^32`: `init_genrand`, with the cursor
at 624 so the next draw triggers a full block twist. -/
def mt_seed (s : Nat) : MTState :=
  let s0 := s % 4294967296
  ⟨s0 :: mtInitAux s0 1 623, 624⟩

/-- One twist step: `mt[k] xor (y >> 1) xor (y&1 ? 0x9908b0df : 0)` with
`y = (mt[i] & 0x80000000) | (mt[i+1] & 0x7fffffff)`. -/
def twistf (mi mi1 mk : Nat) : Nat :=
  let y := (mi &&& 2147483648) ||| (mi1 &&& 2147483647)
  mk ^^^ (y >>> 1) ^^^ (if y % 2 = 1 then 2567483615 else 0)

/-- The self-feeding part of the block twist (indices 227 to 622): each new
word consumes the word produced 227 positions earlier, so the already
produced words are carried as a queue. -/
def twistLoop : List (Nat × Nat) → List Nat → List Nat
  | [], _ => []
  | _ :: rest, [] => twistLoop rest []
  | (a, b) :: rest, f :: fs =>
    let v := twistf a b f
    v :: twistLoop rest (fs ++ [v])

/-- One full MT19937 block generation over the 624-word key. -/
def mtTwist (old : List Nat) : List Nat :=
  let part1 := List.zipWith3 twistf old (old.drop 1) (old.drop 397)
  let part2 := twistLoop ((old.drop 227).zip (old.drop 228)) part1
  let most := part1 ++ part2
  most ++ [twistf (old.getD 623 0) (most.headD 0) (most.getD 396 0)]

/-- MT19937 tempering. -/
def temper (y0 : Nat) : Nat :=
  let y1 := y0 ^^^ (y0 >>> 11)
  let y2 := y1 ^^^ ((y1 <<< 7) &&& 2636928640)
  let y3 := y2 ^^^ ((y2 <<< 15) &&& 4022730752)
  y3 ^^^ (y3 >>> 18)

/-- Draw one 32-bit word, twisting a fresh block when the cursor reaches
the end of the key. -/
def mtNext (st : MTState) : Nat × MTState :=
  let key := if st.pos ≥ 624 then mtTwist st.key else st.key
  let pos := if st.pos ≥ 624 then 0 else st.pos
  (temper (key.getD pos 0), ⟨key, pos + 1⟩)

/-- `np.random.randint(20, 60)`: masked rejection over the inclusive range
`0..39` (mask 63), then the offset 20 is added.  The rejection loop is
given fuel; `none` models non-termination, which has probability zero. -/
def randint_20_60 : Nat → MTState → Option Nat × MTState
  | 0, st => (none, st)
  | fuel + 1, st =>
    let vs := mtNext st
    let m := vs.1 &&& 63
    if m ≤ 39 then (some (20 + m), vs.2) else randint_20_60 fuel vs.2

/-- The fixed high-evidence allowlist (`high_lit`). -/
def high_lit : List String :=
  ["HTT", "BDNF", "APP", "MAPT", "SNCA", "PRKN", "SOD1", "INS", "CASP3", "TP53"]

/-- `calculate_validation(symbol)`: threaded through the global generator
state `g`; the allowlist branch returns 95 without touching `g`, the other
branch reseeds the generator from the symbol character sum, discarding `g`. -/
def calculate_validation (symbol : String) (g : MTState) : Option Nat × MTState :=
  if high_lit.contains symbol then (some 95, g)
  else randint_20_60 100 (mt_seed ((symbol.data.map Char.toNat).sum))

/-- `calculate_priority(row)`: `(base * 0.6) + (lit * 0.4)` with base 100
exactly when the role label contains `"Core"`.  The float arithmetic is
modelled over `ℚ`. -/
def calculate_priority (role : Role) (symbol : String) (g : MTState) :
    Option ℚ × MTState :=
  let base : ℚ := if containsSub "Core" (roleLabel role) then 100 else 50
  let litState := calculate_validation symbol g
  (litState.1.map (fun lit => base * (6 / 10) + (lit : ℚ) * (4 / 10)), litState.2)

example : (calculate_validation "HTT" (mt_seed 0)).1 = some 95 := by decide

/-!
Interactome construction (tab2): nodes are added per selected gene with a
`role` attribute (`G.add_node(symbol, role=...)`, re-adding an existing
symbol only updates its attribute), then for every pair `i < j` of nodes
with identical role different from the Pathway Component label an edge is
added with `G.add_edge(u, v)` — no `weight` attribute and no hub edge
anywhere in the construction.
-/

/-- A networkx edge as built in tab2: endpoints plus the optional `weight`
attribute (`none` when `add_edge` was called without a weight). -/
structure NEdge where
  u : String
  v : String
  weight : Option ℚ
deriving DecidableEq, Repr

/-- `G.add_node(sym, role=r)`: append a fresh node or update the role of an
existing one. -/
def add_node (nodes : List (String × Role)) (sym : String) (r : Role) :
    List (String × Role) :=
  if nodes.any (fun p => p.1 = sym) then
    nodes.map (fun p => if p.1 = sym then (sym, r) else p)
  else nodes ++ [(sym, r)]

/-- The node-insertion loop over the selected genes. -/
def build_nodes (sel : List (String × Role)) : List (String × Role) :=
  sel.foldl (fun ns g => add_node ns g.1 g.2) []

/-- The double loop over `i < j` node pairs adding an (unweighted) edge
whenever the roles agree and differ from the Pathway Component label. -/
def same_role_edges : List (String × Role) → List NEdge
  | [] => []
  | x :: t =>
    (t.filterMap fun y =>
      if x.2 = y.2 ∧ x.2 ≠ Role.pathwayComponent then some ⟨x.1, y.1, none⟩
      else none) ++ same_role_edges t

/-- The tab2 graph from a selection of (symbol, role) rows. -/
def build_interactome (sel : List (String × Role)) :
    List (String × Role) × List NEdge :=
  let nodes := build_nodes sel
  (nodes, same_role_edges nodes)

example :
    (build_interactome
      [("HTT", .coreGene), ("BDNF", .coreGene), ("CASP3", .mitochondrial)]).2 =
    [⟨"HTT", "BDNF", none⟩] := by decide

/-!
Enrichment analysis (tab3): for each label of `role_colors` in insertion
order, with `k` the count of that label among the top 30 genes by score
and `M` its count in the whole table, whenever `M > 0` scipy
`fisher_exact([[k, 30-k], [M-k, N-M-(30-k)]], alternative='greater')` is
run; scipy raises on a negative table entry, and otherwise returns the
upper hypergeometric tail.  The resulting rows are sorted by raw p-value
and the Bonferroni column is `min(1, rawP * len(rows))`.
-/

/-- One row of `enrich_results` before the Bonferroni column is added. -/
structure ERow where
  mechanism : Role
  overlap : Nat
  background : Nat
  rawP : ℚ
deriving DecidableEq, Repr

/-- One row of the final enrichment table (`Adj. P-Value` column added). -/
structure ARow where
  mechanism : Role
  overlap : Nat
  background : Nat
  rawP : ℚ
  adjP : ℚ
deriving DecidableEq, Repr

/-- Upper tail of the hypergeometric distribution with `row1` successes in
a population of `total`, `col1` draws, starting at `a`:
`P[X >= a] = (sum_i C(row1, i) * C(total-row1, col1-i)) / C(total, col1)`
with `i` ranging over `a..min(row1, col1)`. -/
def hyperNum (row1 col1 total a : Nat) : Nat :=
  (((List.range (min row1 col1 + 1)).map fun i =>
      if a ≤ i then Nat.choose row1 i * Nat.choose (total - row1) (col1 - i)
      else 0)).sum

/-- see `hyperNum` for the numerator sum; the quotient is the exact
rational `hyperNum / C(total, col1)` (zero when the denominator is). -/
def hyperP (row1 col1 total a : Nat) : ℚ :=
  mkRat (hyperNum row1 col1 total a) (Nat.choose total col1)

/-- `scipy.stats.fisher_exact([[a, b], [c, d]], alternative='greater')`:
raises (`.error`) on a negative entry, otherwise the one-sided upper
hypergeometric tail at `a` with the table margins. -/
def fisher_exact_greater (a b c d : Int) : Except Unit ℚ :=
  if a < 0 ∨ b < 0 ∨ c < 0 ∨ d < 0 then .error ()
  else .ok (hyperP (a + b).toNat (a + c).toNat (a + b + c + d).toNat a.toNat)

/-- `df.sort_values('Score', ascending=False).head(30)['Functional Role']`:
the roles of the 30 highest-scored genes (stable descending sort). -/
def top_genes (pop : List (Role × ℚ)) : List Role :=
  ((pop.insertionSort fun x y => y.2 ≤ x.2).take 30).map Prod.fst

/-- Occurrences of a role in a list of roles. -/
def countRole (r : Role) (l : List Role) : Nat :=
  l.countP (fun x => x = r)

/-- The body of the `for role in role_colors.keys()` loop. -/
def enrich_step (pop : List (Role × ℚ)) (acc : List ERow) (role : Role) :
    Except Unit (List ERow) :=
  let N : Int := pop.length
  let k : Int := countRole role (top_genes pop)
  let M : Int := countRole role (pop.map Prod.fst)
  if M > 0 then
    match fisher_exact_greater k (30 - k) (M - k) (N - M - (30 - k)) with
    | .error e => .error e
    | .ok p => .ok (acc ++ [⟨role, k.toNat, M.toNat, p⟩])
  else .ok acc

/-- `enrich_results` accumulated over the mechanism loop. -/
def enrich_rows (pop : List (Role × ℚ)) : Except Unit (List ERow) :=
  role_colors_keys.foldlM (enrich_step pop) []

/-- The displayed enrichment table: rows sorted by raw p-value, with the
clipped Bonferroni column `min(1, rawP * len(rows))`. -/
def enrich_table (pop : List (Role × ℚ)) : Except Unit (List ARow) :=
  match enrich_rows pop with
  | .error e => .error e
  | .ok rows =>
    .ok (((rows.insertionSort fun x y => x.rawP ≤ y.rawP)).map fun r =>
      ⟨r.mechanism, r.overlap, r.background, r.rawP,
        min 1 (r.rawP * (rows.length : ℚ))⟩)

example :
    enrich_rows (List.replicate 30 (Role.pathwayComponent, (1 : ℚ))) =
    .ok [⟨.pathwayComponent, 30, 30, 1⟩] := by decide

/-! ## Helper lemmas about the string primitives -/

theorem splitSemiSpace_ne_nil (l : List Char) : splitSemiSpace l ≠ [] := by
  match l with
  | [] => simp [splitSemiSpace]
  | [c] => simp [splitSemiSpace]
  | c1 :: c2 :: t =>
    unfold splitSemiSpace
    split
    · simp
    · split <;> simp

/-- Splitting on `; ` at a semicolon-free prefix peels the prefix off as
the first chunk. -/
theorem splitSemiSpace_boundary (pre rest : List Char) (h : ';' ∉ pre) :
    splitSemiSpace (pre ++ ';' :: ' ' :: rest) = pre :: splitSemiSpace rest := by
  induction pre with
  | nil => simp [splitSemiSpace]
  | cons p ps ih =>
    have hp : ¬(p = ';') := fun e => h (by simp [e])
    have h' : ';' ∉ ps := fun m => h (List.mem_cons_of_mem _ m)
    cases ps with
    | nil => simp [splitSemiSpace, hp]
    | cons q qs =>
      have := ih h'
      simp only [List.cons_append] at this ⊢
      rw [splitSemiSpace, if_neg (by simp [hp]), this]

theorem subIn_semi (pre rest : List Char) :
    subIn [';'] (pre ++ ';' :: rest) = true := by
  induction pre with
  | nil => simp [subIn, startsL]
  | cons p ps ih => simp [subIn, ih]

theorem takeWhile_of_all {α} (p : α → Bool) (l : List α)
    (h : ∀ c ∈ l, p c = true) : l.takeWhile p = l := by
  induction l with
  | nil => rfl
  | cons a t ih =>
    simp only [List.takeWhile_cons, h a (by simp)]
    simp [ih fun c hc => h c (by simp [hc])]

theorem dropWhile_of_all {α} (p : α → Bool) (l : List α)
    (h : ∀ c ∈ l, p c = true) : l.dropWhile p = [] := by
  induction l with
  | nil => rfl
  | cons a t ih =>
    simp only [List.dropWhile_cons, h a (by simp)]
    simp [ih fun c hc => h c (by simp [hc])]

/-- On a whitespace-free input, `split(None, 1)` returns at most the input
itself as a single token. -/
theorem splitNone1_token (t : List Char)
    (h : ∀ c ∈ t, c.isWhitespace = false) :
    splitNone1 t = [] ∨ splitNone1 t = [t] := by
  cases t with
  | nil => left; rfl
  | cons a as =>
    right
    have hall : ∀ c ∈ a :: as, (fun c => !Char.isWhitespace c) c = true := by
      intro c hc; simp [h c hc]
    have h1 : (a :: as).dropWhile Char.isWhitespace = a :: as := by
      simp [List.dropWhile_cons, h a (by simp)]
    unfold splitNone1
    simp only [h1, takeWhile_of_all _ _ hall, dropWhile_of_all _ _ hall]
    simp

/-! ## Claim theorems -/

/-- C3 (counterexample): on the GENE-section line
`1234 HTT; desc one; desc two` the parsed description is `desc one` — the
split happens at every `; `, so text after the second `; `, which the claim
says must be preserved, is discarded. -/
theorem c3_counterexample :
    get_kegg_genes 200 "GENE        1234 HTT; desc one; desc two" =
      .ok [⟨"1234", "HTT", "desc one"⟩] ∧
    ("desc one" : String) ≠ "desc one; desc two" := by decide

/-- C3 (amended): a data line is split at every occurrence of the
two-character token `; `.  For a line `idsym; d1; rest` with `idsym` and
`d1` semicolon-free, the description becomes `d1.strip()` — everything
from the second `; ` on is dropped — and `idsym` is split at its first
whitespace run into the id and the symbol. -/
theorem c3_description_truncated_at_second_sep
    (idsym d1 rest gi gs : List Char)
    (h1 : ';' ∉ idsym) (h2 : ';' ∉ d1)
    (h3 : splitNone1 (trimC idsym) = [gi, gs]) :
    extractGene (idsym ++ ';' :: ' ' :: (d1 ++ ';' :: ' ' :: rest)) =
      .ok (some ⟨⟨trimC gi⟩, ⟨trimC gs⟩, ⟨trimC d1⟩⟩) := by
  have hsub := subIn_semi idsym (' ' :: (d1 ++ ';' :: ' ' :: rest))
  have hs1 := splitSemiSpace_boundary idsym (d1 ++ ';' :: ' ' :: rest) h1
  have hs2 := splitSemiSpace_boundary d1 rest h2
  simp [extractGene, hsub, hs1, hs2, h3]

/-- Witness for `c3_description_truncated_at_second_sep`: the description
is truncated to the first `; `-delimited field. -/
theorem c3_witness :
    extractGene ("1234 HTT".data ++ ';' :: ' ' ::
        ("huntingtin protein".data ++ ';' :: ' ' :: "ignored tail".data)) =
      .ok (some ⟨⟨trimC "1234".data⟩, ⟨trimC "HTT".data⟩,
        ⟨trimC "huntingtin protein".data⟩⟩) :=
  c3_description_truncated_at_second_sep _ _ _ _ _ (by decide) (by decide)
    (by decide)

/-- C10 (counterexample): the claim ranges over GENE-section lines that
contain `;` with a single token before the first `;`; on such a line whose
`;` is not followed by a space (here `HTT;huntingtin`) the parse raises
(`parts[1]` IndexError) instead of silently dropping the line. -/
theorem c10_counterexample :
    get_kegg_genes 200 "GENE        HTT;huntingtin" = .error () := by decide

/-- C10 (amended): for a GENE-section data line containing the
two-character delimiter `; ` whose part before the delimiter strips to a
single whitespace-free token, no record and no error is produced: the
`len(sub_parts) >= 2` check fails and the line is silently dropped. -/
theorem c10_single_token_line_skipped (pre rest : List Char)
    (h1 : ';' ∉ pre)
    (h2 : ∀ c ∈ trimC pre, c.isWhitespace = false) :
    extractGene (pre ++ ';' :: ' ' :: rest) = .ok none := by
  have hsub := subIn_semi pre (' ' :: rest)
  have hsplit := splitSemiSpace_boundary pre rest h1
  cases e : splitSemiSpace rest with
  | nil => exact absurd e (splitSemiSpace_ne_nil rest)
  | cons hh hr =>
    rcases splitNone1_token (trimC pre) h2 with h3 | h3 <;>
      simp [extractGene, hsub, hsplit, e, h3]

/-- Witness for `c10_single_token_line_skipped`: the line
`HTT; huntingtin` (no id column) yields no record and no error. -/
theorem c10_witness :
    extractGene ("HTT".data ++ ';' :: ' ' :: "huntingtin".data) = .ok none :=
  c10_single_token_line_skipped _ _ (by decide) (by decide)

/-- C2 (counterexample): a failed fetch (status 404) of a body that would
parse to one gene yields exactly the same result as a successful fetch of
an empty body — `.ok []` — so the failure is not distinguishable from a
successful fetch that parses to zero genes. -/
theorem c2_counterexample :
    get_kegg_genes 404 "GENE        1234 HTT; huntingtin" = .ok [] ∧
    get_kegg_genes 200 "" = .ok [] ∧
    get_kegg_genes 200 "GENE        1234 HTT; huntingtin" =
      .ok [⟨"1234", "HTT", "huntingtin"⟩] := by decide

/-- C2 (amended): every fetch with a non-200 status returns the empty gene
table `.ok []`; no explicit failure value is produced, so callers cannot
tell a failed fetch from a successful parse of zero genes. -/
theorem c2_failed_fetch_is_empty_table (status : Nat) (text : String)
    (h : status ≠ 200) : get_kegg_genes status text = .ok [] := by
  unfold get_kegg_genes
  simp [h]

/-- Witness for `c2_failed_fetch_is_empty_table` at status 404. -/
theorem c2_witness :
    get_kegg_genes 404 "GENE        1234 HTT; huntingtin" = .ok [] :=
  c2_failed_fetch_is_empty_table 404 _ (by decide)

/-- C4: the parser is not exception-free — on a GENE-section line that
contains `;` but not the two-character split token `; ` (here
`1234 HTT;huntingtin`), `parts = line.split('; ')` has a single element
and `parts[1]` raises `IndexError`, modelled by `.error ()`.  The claim
(and the spec) say such a malformed line must be skipped with the parse
succeeding. -/
theorem c4_semicolon_line_raises :
    get_kegg_genes 200 "GENE        1234 HTT;huntingtin" = .error () := by
  decide

/-- C6 (counterexample): symbol `PSMA1` contains the uppercase substring
`PSM`, matches no earlier rule (plain description, not a core gene), and
yet classifies as the catch-all Pathway Component label, not Proteostasis:
rule 6 tests the lowercase substring `psm` against the symbol. -/
theorem c6_counterexample :
    assign_role "PSMA1" "alpha subunit" "Huntington\x27s" =
      .pathwayComponent ∧
    Role.pathwayComponent ≠ Role.proteostasis := by decide

/-- C6 (amended): when rules 1 to 5 all fail, the classifier returns
Proteostasis exactly when the symbol contains the case-sensitive
lowercase substring `psm` or the lowercased description contains
`proteasome`; an uppercase `PSM` in the symbol does not match. -/
theorem c6_psm_rule_is_lowercase (symbol desc disease : String)
    (h1 : symbol ∉ core_dict disease)
    (h2 : containsSub "mitochond" (lowerStr desc) = false)
    (h3 : containsSub "atp" (lowerStr desc) = false)
    (h4 : containsSub "apopt" (lowerStr desc) = false)
    (h5 : containsSub "caspase" (lowerStr desc) = false)
    (h6 : containsSub "autophagy" (lowerStr desc) = false)
    (h7 : containsSub "synap" (lowerStr desc) = false)
    (h8 : containsSub "glutamate" (lowerStr desc) = false)
    (h9 : containsSub "psm" symbol = true ∨
          containsSub "proteasome" (lowerStr desc) = true) :
    assign_role symbol desc disease = .proteostasis := by
  unfold assign_role
  rcases h9 with h9 | h9 <;> simp [h1, h2, h3, h4, h5, h6, h7, h8, h9]

/-- Witness for `c6_psm_rule_is_lowercase`: a symbol containing lowercase
`psm` classifies as Proteostasis. -/
theorem c6_witness : assign_role "psmA1" "alpha subunit" "ALS" = .proteostasis :=
  c6_psm_rule_is_lowercase _ _ _ (by decide) (by decide) (by decide) (by decide)
    (by decide) (by decide) (by decide) (by decide) (Or.inl (by decide))

/-- Every edge produced by the same-role double loop records no weight and
joins two listed nodes of one common non-catch-all role. -/
theorem mem_same_role_edges {l : List (String × Role)} {e : NEdge}
    (he : e ∈ same_role_edges l) :
    e.weight = none ∧
    ∃ x ∈ l, ∃ y ∈ l, x.2 = y.2 ∧ x.2 ≠ Role.pathwayComponent ∧
      e = ⟨x.1, y.1, none⟩ := by
  induction l with
  | nil => simp [same_role_edges] at he
  | cons x t ih =>
    rw [same_role_edges, List.mem_append] at he
    rcases he with he | he
    · rw [List.mem_filterMap] at he
      obtain ⟨y, hy, hye⟩ := he
      by_cases hc : x.2 = y.2 ∧ x.2 ≠ Role.pathwayComponent
      · rw [if_pos hc] at hye
        cases hye
        exact ⟨rfl, x, by simp, y, by simp [hy], hc.1, hc.2, rfl⟩
      · rw [if_neg hc] at hye
        cases hye
    · obtain ⟨hw, a, ha, b, hb, hab, hnp, he'⟩ := ih he
      exact ⟨hw, a, by simp [ha], b, by simp [hb], hab, hnp, he'⟩

/-- C5 (counterexample): for the selection
`[(HTT, CoreGene), (BDNF, CoreGene), (CASP3, Mitochondrial)]` the built
graph has exactly one edge, the same-role pair `HTT - BDNF`, and no edge
carries the weight 0.5 the claim requires (nor any weight at all); in
particular no weighted hub star exists. -/
theorem c5_counterexample :
    (build_interactome
      [("HTT", .coreGene), ("BDNF", .coreGene), ("CASP3", .mitochondrial)]).2 =
      [⟨"HTT", "BDNF", none⟩] ∧
    ¬ ∃ e ∈ (build_interactome
      [("HTT", .coreGene), ("BDNF", .coreGene), ("CASP3", .mitochondrial)]).2,
        e.weight = some (mkRat 1 2) := by decide

/-- C5 (amended): every edge of the built interactome is a same-role
clustering edge — it joins two nodes of the selection that share one role
different from the Pathway Component label — and carries no weight
attribute; there are no hub edges and no weights 1.0 or 0.5. -/
theorem c5_edges_unweighted_same_role (sel : List (String × Role))
    (e : NEdge) (he : e ∈ (build_interactome sel).2) :
    e.weight = none ∧
    ∃ r, r ≠ Role.pathwayComponent ∧
      (e.u, r) ∈ (build_interactome sel).1 ∧
      (e.v, r) ∈ (build_interactome sel).1 := by
  obtain ⟨hw, x, hx, y, hy, hxy, hnp, he'⟩ := mem_same_role_edges he
  subst he'
  refine ⟨rfl, x.2, hnp, by simpa using hx, ?_⟩
  show (y.1, x.2) ∈ (build_interactome sel).1
  rw [hxy]
  simpa using hy

/-- Witness for `c5_edges_unweighted_same_role` at a concrete selection
and its single edge. -/
theorem c5_witness :
    (⟨"HTT", "BDNF", none⟩ : NEdge).weight = none ∧
    ∃ r, r ≠ Role.pathwayComponent ∧
      ("HTT", r) ∈ (build_interactome
        [("HTT", .coreGene), ("BDNF", .coreGene), ("CASP3", .mitochondrial)]).1 ∧
      ("BDNF", r) ∈ (build_interactome
        [("HTT", .coreGene), ("BDNF", .coreGene), ("CASP3", .mitochondrial)]).1 :=
  c5_edges_unweighted_same_role _ ⟨"HTT", "BDNF", none⟩ (by decide)

/-- C7: whenever the symbol is in the active condition core set, the
classifier returns the Core Gene label, regardless of the description —
rule 1 dominates the keyword rules 2 to 6. -/
theorem c7_core_gene_dominates (symbol desc disease : String)
    (h : symbol ∈ core_dict disease) :
    assign_role symbol desc disease = .coreGene := by
  unfold assign_role
  simp [h]

/-- Witness for `c7_core_gene_dominates`: `HTT` with a description full of
later-rule keywords still classifies as Core Gene. -/
theorem c7_witness :
    assign_role "HTT" "mitochondria, atp, apoptosis, synaptic"
      "Huntington\x27s" = .coreGene :=
  c7_core_gene_dominates _ _ _ (by decide)

/-- A successful bounded draw lies in `[20, 60)`: the rejection loop only
accepts a masked word of value at most 39 and adds the offset 20. -/
theorem randint_20_60_range (fuel : Nat) :
    ∀ (st : MTState) (v : Nat), (randint_20_60 fuel st).1 = some v →
      20 ≤ v ∧ v < 60 := by
  induction fuel with
  | zero => intro st v h; simp [randint_20_60] at h
  | succ n ih =>
    intro st v h
    rw [randint_20_60] at h
    split at h
    · next hm =>
      simp only at h
      cases h
      omega
    · exact ih _ _ h

/-- C8: the literature score is deterministic — its value does not depend
on the incoming global generator state, because the non-allowlist branch
reseeds the generator from the symbol alone — and equals 95 on the
allowlist, otherwise (when the rejection sampler returns) lies in
`[20, 60)`; consequently the priority is identical across calls for the
same role and symbol. -/
theorem c8_validation_deterministic_and_bounded (symbol : String)
    (g1 g2 : MTState) :
    (calculate_validation symbol g1).1 = (calculate_validation symbol g2).1 ∧
    (symbol ∈ high_lit →
      (calculate_validation symbol g1).1 = some 95) ∧
    (symbol ∉ high_lit → ∀ v,
      (calculate_validation symbol g1).1 = some v → 20 ≤ v ∧ v < 60) ∧
    (∀ role, (calculate_priority role symbol g1).1 =
      (calculate_priority role symbol g2).1) := by
  have hdet : (calculate_validation symbol g1).1 =
      (calculate_validation symbol g2).1 := by
    by_cases hc : symbol ∈ high_lit <;> simp [calculate_validation, hc]
  refine ⟨hdet, ?_, ?_, ?_⟩
  · intro h; simp [calculate_validation, h]
  · intro h v hv
    rw [calculate_validation] at hv
    rw [if_neg (by simpa using h)] at hv
    exact randint_20_60_range _ _ _ hv
  · intro role
    simp [calculate_priority, hdet]

/-- Bridge between the executable list sum and the `Finset.range` sum. -/
theorem listSum_range (f : ℕ → ℕ) (n : ℕ) :
    ((List.range n).map f).sum = Finset.sum (Finset.range n) f := by
  induction n with
  | zero => simp
  | succ k ih => rw [List.range_succ, Finset.sum_range_succ]; simp [ih]

/-- The hypergeometric tail is nonnegative. -/
theorem hyperP_nonneg (row1 col1 total a : Nat) :
    0 ≤ hyperP row1 col1 total a := by
  rw [hyperP, Rat.mkRat_eq_div]
  apply div_nonneg
  · exact_mod_cast Int.ofNat_nonneg _
  · exact_mod_cast Nat.zero_le _

/-- The hypergeometric tail is at most one: the partial guarded sum of
products of binomials is bounded by the full Vandermonde sum
`C(total, col1)`. -/
theorem hyperP_le_one (row1 col1 total a : Nat) (h : row1 ≤ total) :
    hyperP row1 col1 total a ≤ 1 := by
  rw [hyperP, Rat.mkRat_eq_div]
  rcases Nat.eq_zero_or_pos (Nat.choose total col1) with hd | hd
  · simp [hd]
  · rw [div_le_one (by exact_mod_cast hd)]
    have key : hyperNum row1 col1 total a ≤ Nat.choose total col1 := by
      rw [hyperNum, listSum_range]
      calc
        Finset.sum (Finset.range (min row1 col1 + 1)) (fun i =>
            if a ≤ i then Nat.choose row1 i * Nat.choose (total - row1) (col1 - i)
            else 0)
            ≤ Finset.sum (Finset.range (min row1 col1 + 1)) (fun i =>
                Nat.choose row1 i * Nat.choose (total - row1) (col1 - i)) := by
              apply Finset.sum_le_sum
              intro i _
              split
              · exact le_refl _
              · exact Nat.zero_le _
        _ ≤ Finset.sum (Finset.range (col1 + 1)) (fun i =>
                Nat.choose row1 i * Nat.choose (total - row1) (col1 - i)) := by
              apply Finset.sum_le_sum_of_subset
              apply Finset.range_subset.mpr
              omega
        _ = (row1 + (total - row1)).choose col1 := by
              rw [Nat.add_choose_eq,
                Finset.Nat.sum_antidiagonal_eq_sum_range_succ_mk]
        _ = total.choose col1 := by rw [Nat.add_sub_cancel' h]
    exact_mod_cast key

/-- A Fisher test that does not raise returns a p-value in `[0, 1]`. -/
theorem fisher_ok_bounds {a b c d : Int} {p : ℚ}
    (h : fisher_exact_greater a b c d = .ok p) : 0 ≤ p ∧ p ≤ 1 := by
  rw [fisher_exact_greater] at h
  split at h
  · exact absurd h (by simp)
  · next hneg =>
    push_neg at hneg
    obtain ⟨ha, hb, hc, hd⟩ := hneg
    have hp : p = hyperP (a + b).toNat (a + c).toNat (a + b + c + d).toNat
        a.toNat := by
      simpa using h.symm
    rw [hp]
    refine ⟨hyperP_nonneg _ _ _ _, hyperP_le_one _ _ _ _ ?_⟩
    omega

/-- Invariant of the enrichment loop: every accumulated row either was in
the initial accumulator or has a p-value in `[0, 1]` and a positive
background count equal to the population count of its mechanism. -/
theorem enrich_fold_invariant (pop : List (Role × ℚ)) (roles : List Role) :
    ∀ (acc out : List ERow),
      List.foldlM (enrich_step pop) acc roles = .ok out →
      ∀ r ∈ out, r ∈ acc ∨
        (0 ≤ r.rawP ∧ r.rawP ≤ 1 ∧
         r.background = countRole r.mechanism (pop.map Prod.fst) ∧
         0 < r.background) := by
  induction roles with
  | nil =>
    intro acc out h r hr
    simp only [List.foldlM_nil] at h
    cases h
    exact Or.inl hr
  | cons role roles ih =>
    intro acc out h r hr
    rw [List.foldlM_cons] at h
    cases hstep : enrich_step pop acc role with
    | error e => rw [hstep] at h; exact absurd h (by simp [Bind.bind, Except.bind])
    | ok acc' =>
      rw [hstep] at h
      replace h : List.foldlM (enrich_step pop) acc' roles = .ok out := h
      rcases ih acc' out h r hr with hacc' | hinv
      · simp only [enrich_step] at hstep
        split at hstep
        · next hpos =>
          cases hf : fisher_exact_greater
              (countRole role (top_genes pop) : Int)
              (30 - (countRole role (top_genes pop) : Int))
              ((countRole role (pop.map Prod.fst) : Int) -
                (countRole role (top_genes pop) : Int))
              ((pop.length : Int) - (countRole role (pop.map Prod.fst) : Int) -
                (30 - (countRole role (top_genes pop) : Int))) with
          | error e => rw [hf] at hstep; exact absurd hstep (by simp)
          | ok p =>
            rw [hf] at hstep
            simp only [Except.ok.injEq] at hstep
            subst hstep
            rcases List.mem_append.mp hacc' with hl | hr'
            · exact Or.inl hl
            · right
              rcases List.mem_singleton.mp hr' with rfl
              obtain ⟨hp0, hp1⟩ := fisher_ok_bounds hf
              refine ⟨hp0, hp1, ?_, ?_⟩
              · simp
              · simp only
                omega
        · next hpos =>
          cases hstep
          exact Or.inl hacc'
      · exact Or.inr hinv

/-- The enrichment loop only appends: initial rows survive to the end. -/
theorem enrich_fold_mono (pop : List (Role × ℚ)) (roles : List Role) :
    ∀ (acc out : List ERow),
      List.foldlM (enrich_step pop) acc roles = .ok out →
      ∀ r ∈ acc, r ∈ out := by
  induction roles with
  | nil =>
    intro acc out h r hr
    simp only [List.foldlM_nil] at h
    cases h
    exact hr
  | cons role roles ih =>
    intro acc out h r hr
    rw [List.foldlM_cons] at h
    cases hstep : enrich_step pop acc role with
    | error e => rw [hstep] at h; exact absurd h (by simp [Bind.bind, Except.bind])
    | ok acc' =>
      rw [hstep] at h
      replace h : List.foldlM (enrich_step pop) acc' roles = .ok out := h
      refine ih acc' out h r ?_
      simp only [enrich_step] at hstep
      split at hstep
      · cases hfm : fisher_exact_greater
            (countRole role (top_genes pop) : Int)
            (30 - (countRole role (top_genes pop) : Int))
            ((countRole role (pop.map Prod.fst) : Int) -
              (countRole role (top_genes pop) : Int))
            ((pop.length : Int) - (countRole role (pop.map Prod.fst) : Int) -
              (30 - (countRole role (top_genes pop) : Int))) with
        | error e => rw [hfm] at hstep; exact absurd hstep (by simp)
        | ok p =>
          rw [hfm] at hstep
          simp only [Except.ok.injEq] at hstep
          subst hstep
          exact List.mem_append_left _ hr
      · cases hstep
        exact hr

/-- Every role of the iterated mechanism list with nonzero background
count contributes one row to a successful enrichment run. -/
theorem enrich_fold_covers (pop : List (Role × ℚ)) (roles : List Role) :
    ∀ (acc out : List ERow),
      List.foldlM (enrich_step pop) acc roles = .ok out →
      ∀ role ∈ roles, 0 < countRole role (pop.map Prod.fst) →
        ∃ r ∈ out, r.mechanism = role := by
  induction roles with
  | nil => intro acc out _ role hrole; exact absurd hrole (by simp)
  | cons role0 roles ih =>
    intro acc out h role hrole hM
    rw [List.foldlM_cons] at h
    cases hstep : enrich_step pop acc role0 with
    | error e => rw [hstep] at h; exact absurd h (by simp [Bind.bind, Except.bind])
    | ok acc' =>
      rw [hstep] at h
      replace h : List.foldlM (enrich_step pop) acc' roles = .ok out := h
      rcases List.mem_cons.mp hrole with rfl | hmem
      · simp only [enrich_step] at hstep
        rw [if_pos (by exact_mod_cast hM)] at hstep
        cases hfm : fisher_exact_greater
            (countRole role (top_genes pop) : Int)
            (30 - (countRole role (top_genes pop) : Int))
            ((countRole role (pop.map Prod.fst) : Int) -
              (countRole role (top_genes pop) : Int))
            ((pop.length : Int) - (countRole role (pop.map Prod.fst) : Int) -
              (30 - (countRole role (top_genes pop) : Int))) with
        | error e => rw [hfm] at hstep; exact absurd hstep (by simp)
        | ok p =>
          rw [hfm] at hstep
          simp only [Except.ok.injEq] at hstep
          subst hstep
          refine ⟨⟨role, (countRole role (top_genes pop) : Int).toNat,
            (countRole role (pop.map Prod.fst) : Int).toNat, p⟩, ?_, rfl⟩
          exact enrich_fold_mono pop roles _ _ h _
            (List.mem_append_right _ (by simp))
      · exact ih acc' out h role hmem hM

/-- C9: every row of a successful enrichment table has `0 ≤ rawP ≤ 1`,
`rawP ≤ adjP ≤ 1` with `adjP = min(1, rawP * number_of_rows)` (the number
of rows equals the number of mechanisms tested, those with nonzero
background), and a positive background count equal to the population
count of its mechanism — no `M = 0` row is ever emitted. -/
theorem c9_enrichment_table_well_formed (pop : List (Role × ℚ))
    (table : List ARow) (row : ARow)
    (h : enrich_table pop = .ok table) (hr : row ∈ table) :
    0 ≤ row.rawP ∧ row.rawP ≤ 1 ∧ row.rawP ≤ row.adjP ∧ row.adjP ≤ 1 ∧
    row.adjP = min 1 (row.rawP * (table.length : ℚ)) ∧
    row.background = countRole row.mechanism (pop.map Prod.fst) ∧
    0 < row.background := by
  rw [enrich_table] at h
  cases he : enrich_rows pop with
  | error e => rw [he] at h; exact absurd h (by simp)
  | ok rows =>
    rw [he] at h
    simp only [Except.ok.injEq] at h
    subst h
    obtain ⟨r0, hr0, hfr⟩ := List.mem_map.mp hr
    have hr0rows : r0 ∈ rows := (List.perm_insertionSort _ rows).subset hr0
    rw [enrich_rows] at he
    rcases enrich_fold_invariant pop role_colors_keys [] rows he r0 hr0rows with
      h0 | ⟨hp0, hp1, hbg, hbgpos⟩
    · exact absurd h0 (by simp)
    have hlen : ((rows.insertionSort fun x y => x.rawP ≤ y.rawP).map fun r =>
        (⟨r.mechanism, r.overlap, r.background, r.rawP,
          min 1 (r.rawP * (rows.length : ℚ))⟩ : ARow)).length = rows.length := by
      rw [List.length_map, (List.perm_insertionSort _ rows).length_eq]
    have hL : (1 : ℚ) ≤ (rows.length : ℚ) := by
      have : 0 < rows.length := List.length_pos.mpr (by
        intro hnil; rw [hnil] at hr0rows; exact absurd hr0rows (by simp))
      exact_mod_cast this
    subst hfr
    refine ⟨hp0, hp1, ?_, ?_, ?_, hbg, hbgpos⟩
    · exact le_min hp1 (le_mul_of_one_le_right hp0 hL)
    · exact min_le_left _ _
    · rw [hlen]

/-- C1 (counterexample): for a population of 30 Pathway Component genes
the enrichment table consists of exactly one row, labelled with the
catch-all Pathway Component mechanism — the loop runs over all of
`role_colors.keys()`, which includes it. -/
theorem c1_counterexample :
    (enrich_table (List.replicate 30 (Role.pathwayComponent, (1 : ℚ)))).map
      (fun t => t.map ARow.mechanism) = .ok [Role.pathwayComponent] := by
  have h : enrich_rows (List.replicate 30 (Role.pathwayComponent, (1 : ℚ))) =
      .ok [⟨.pathwayComponent, 30, 30, 1⟩] := by decide
  rw [enrich_table, h]
  simp [List.insertionSort, List.orderedInsert, Except.map]

/-- C1 (amended): the one-sided test loop runs over every label of
`role_colors`, including the catch-all Pathway Component, so whenever the
population contains at least one Pathway Component gene (and the run does
not raise), the report contains a Pathway Component row. -/
theorem c1_pathway_component_row_present (pop : List (Role × ℚ))
    (table : List ARow) (h : enrich_table pop = .ok table)
    (hM : 0 < countRole Role.pathwayComponent (pop.map Prod.fst)) :
    ∃ row ∈ table, row.mechanism = Role.pathwayComponent := by
  rw [enrich_table] at h
  cases he : enrich_rows pop with
  | error e => rw [he] at h; exact absurd h (by simp)
  | ok rows =>
    rw [he] at h
    simp only [Except.ok.injEq] at h
    subst h
    rw [enrich_rows] at he
    obtain ⟨r, hrmem, hrmech⟩ := enrich_fold_covers pop role_colors_keys []
      rows he Role.pathwayComponent (by simp [role_colors_keys]) hM
    refine ⟨⟨r.mechanism, r.overlap, r.background, r.rawP,
      min 1 (r.rawP * (rows.length : ℚ))⟩, ?_, hrmech⟩
    exact List.mem_map_of_mem _
      ((List.perm_insertionSort _ rows).mem_iff.mpr hrmem)

/-- Witness for `c1_pathway_component_row_present` at the concrete
30-gene Pathway Component population. -/
theorem c1_witness :
    ∃ table, enrich_table (List.replicate 30 (Role.pathwayComponent, (1 : ℚ)))
        = .ok table ∧
      ∃ row ∈ table, row.mechanism = Role.pathwayComponent := by
  have h : enrich_rows (List.replicate 30 (Role.pathwayComponent, (1 : ℚ))) =
      .ok [⟨.pathwayComponent, 30, 30, 1⟩] := by decide
  have ht : enrich_table (List.replicate 30 (Role.pathwayComponent, (1 : ℚ)))
      = .ok (([(⟨.pathwayComponent, 30, 30, 1⟩ : ERow)].insertionSort
          fun x y => x.rawP ≤ y.rawP).map fun r =>
            ⟨r.mechanism, r.overlap, r.background, r.rawP,
              min 1 (r.rawP * (([(⟨.pathwayComponent, 30, 30, 1⟩ : ERow)].length : ℕ) : ℚ))⟩) := by
    rw [enrich_table, h]
  exact ⟨_, ht,
    c1_pathway_component_row_present _ _ ht (by decide)⟩

/-- Witness for `c9_enrichment_table_well_formed` at a concrete 30-gene
Apoptosis population and the single row of its table. -/
theorem c9_witness :
    ∃ table row,
      enrich_table (List.replicate 30 (Role.apoptosis, (1 : ℚ))) = .ok table ∧
      row ∈ table ∧
      (0 ≤ row.rawP ∧ row.rawP ≤ 1 ∧ row.rawP ≤ row.adjP ∧ row.adjP ≤ 1 ∧
       row.adjP = min 1 (row.rawP * (table.length : ℚ)) ∧
       row.background = countRole row.mechanism
         ((List.replicate 30 (Role.apoptosis, (1 : ℚ))).map Prod.fst) ∧
       0 < row.background) := by
  have h : enrich_rows (List.replicate 30 (Role.apoptosis, (1 : ℚ))) =
      .ok [⟨.apoptosis, 30, 30, 1⟩] := by decide
  have ht : enrich_table (List.replicate 30 (Role.apoptosis, (1 : ℚ)))
      = .ok (([(⟨.apoptosis, 30, 30, 1⟩ : ERow)].insertionSort
          fun x y => x.rawP ≤ y.rawP).map fun r =>
            ⟨r.mechanism, r.overlap, r.background, r.rawP,
              min 1 (r.rawP * (([(⟨.apoptosis, 30, 30, 1⟩ : ERow)].length : ℕ) : ℚ))⟩) := by
    rw [enrich_table, h]
  have hrow : (⟨.apoptosis, 30, 30, 1,
      min 1 ((1 : ℚ) * (([(⟨.apoptosis, 30, 30, 1⟩ : ERow)].length : ℕ) : ℚ))⟩ : ARow) ∈
      (([(⟨.apoptosis, 30, 30, 1⟩ : ERow)].insertionSort
          fun x y => x.rawP ≤ y.rawP).map fun r =>
            (⟨r.mechanism, r.overlap, r.background, r.rawP,
              min 1 (r.rawP * (([(⟨.apoptosis, 30, 30, 1⟩ : ERow)].length : ℕ) : ℚ))⟩ : ARow)) := by
    simp [List.insertionSort, List.orderedInsert]
  exact ⟨_, _, ht, hrow,
    c9_enrichment_table_well_formed _ _ _ ht hrow⟩

set_option maxRecDepth 100000 in
/-- Witness for `c8_validation_deterministic_and_bounded`: concrete
allowlist symbol `HTT` (score 95 from any two generator states) and
non-allowlist symbol `ABC` (seed 198, first accepted draw 27, inside
`[20, 60)`), with the priority equality instantiated for the core role. -/
theorem c8_witness :
    (calculate_validation "HTT" (mt_seed 0)).1 =
      (calculate_validation "HTT" (mt_seed 5)).1 ∧
    (calculate_validation "HTT" (mt_seed 0)).1 = some 95 ∧
    (20 ≤ 27 ∧ 27 < 60) ∧
    (calculate_priority .coreGene "HTT" (mt_seed 0)).1 =
      (calculate_priority .coreGene "HTT" (mt_seed 5)).1 := by
  refine ⟨(c8_validation_deterministic_and_bounded "HTT" (mt_seed 0)
      (mt_seed 5)).1,
    (c8_validation_deterministic_and_bounded "HTT" (mt_seed 0)
      (mt_seed 5)).2.1 (by decide), ?_,
    (c8_validation_deterministic_and_bounded "HTT" (mt_seed 0)
      (mt_seed 5)).2.2.2 .coreGene⟩
  exact (c8_validation_deterministic_and_bounded "ABC" (mt_seed 0)
    (mt_seed 0)).2.2.1 (by decide) 27 (by decide)

end HuntApp
